import Mathlib

/-!
Shallow embedding of the `asn-memo` spaced-repetition core
(`src/spaced_repetition.py`, `src/progress.py`, and the study-session
selection in `src/app.py`), together with theorems checking the
natural-language specification against it.

Modelling conventions:
* Python floats are modelled as exact rationals (`ℚ`); the arithmetic in
  the SM-2 formula is the real-number reading of the source expressions.
* Timestamps (`datetime`) are modelled as integers (`ℤ`) counting days;
  `timedelta(days=n)` is addition of `n`, and `datetime.now()` is passed
  to each operation explicitly as a `now` parameter.
* The mutable `dict[str, CardState]` store is modelled as an association
  list with the same observable behaviour: lookup finds the first entry
  with the key, assignment replaces an existing entry in place (keeping
  its position, as Python dicts do) or appends a new entry at the end.
* Python's `list.sort` is a stable sort; it is embedded as the stable
  `List.insertionSort`, which computes the same output as any stable
  sort with the same comparison.
-/

namespace AsnMemo

/-- The `Rating` enumeration from `src/spaced_repetition.py` (an `IntEnum`
with fixed values AGAIN=0, HARD=2, GOOD=3, EASY=5). -/
inductive Rating where
  | AGAIN
  | HARD
  | GOOD
  | EASY
  deriving DecidableEq, Repr

/-- The integer value of a `Rating` (`int(rating)` in the source). -/
def Rating.val : Rating → ℤ
  | .AGAIN => 0
  | .HARD => 2
  | .GOOD => 3
  | .EASY => 5

/-- The `CardState` dataclass from `src/spaced_repetition.py`. -/
structure CardState where
  card_id : String
  ease_factor : ℚ
  interval : ℤ
  repetitions : ℕ
  next_review : ℤ
  last_reviewed : Option ℤ
  deriving DecidableEq, Repr

/-- The fresh default `CardState(card_id=card_id)` (field defaults:
ease 2.5, interval 0, repetitions 0, `next_review = datetime.now()`,
`last_reviewed = None`). -/
def CardState.fresh (card_id : String) (now : ℤ) : CardState :=
  { card_id := card_id
    ease_factor := 2.5
    interval := 0
    repetitions := 0
    next_review := now
    last_reviewed := none }

/-- Embedding of `CardState.is_due`: `datetime.now() >= self.next_review`. -/
def CardState.is_due (now : ℤ) (state : CardState) : Bool :=
  decide (state.next_review ≤ now)

/-- Python's built-in `round`: nearest integer, ties going to the even
integer (banker's rounding). -/
def pyRound (q : ℚ) : ℤ :=
  let f : ℤ := ⌊q⌋
  let frac : ℚ := q - f
  if frac < 1/2 then f
  else if 1/2 < frac then f + 1
  else if f % 2 = 0 then f else f + 1

/-- Embedding of `sm2_algorithm` from `src/spaced_repetition.py`.
The comparison `rating >= Rating.GOOD` in the source compares `IntEnum`
values, i.e. it is `3 ≤ rating_value`; the Python code assigns
`new_interval` and `new_repetitions` inside one conditional on that test,
rendered here as two conditionals with the same condition.  The interval
branch for `repetitions > 1` reads `state.ease_factor`, the ease factor
from before this review's update, exactly as the source does. -/
def sm2_algorithm (now : ℤ) (state : CardState) (rating : Rating) : CardState :=
  let rating_value : ℤ := rating.val
  let new_ease : ℚ :=
    state.ease_factor +
      (0.1 - ((5 - rating_value : ℤ) : ℚ) * (0.08 + ((5 - rating_value : ℤ) : ℚ) * 0.02))
  let new_ease : ℚ := max 1.3 new_ease
  let new_interval : ℤ :=
    if 3 ≤ rating_value then
      if state.repetitions = 0 then 1
      else if state.repetitions = 1 then 6
      else pyRound ((state.interval : ℚ) * state.ease_factor)
    else 1
  let new_repetitions : ℕ :=
    if 3 ≤ rating_value then state.repetitions + 1 else 0
  { card_id := state.card_id
    ease_factor := new_ease
    interval := new_interval
    repetitions := new_repetitions
    next_review := now + new_interval
    last_reviewed := some now }

/-- The card-state store owned by `Scheduler` (`dict[str, CardState]`),
modelled as an association list in insertion order. -/
abbrev Store := List (String × CardState)

/-- Dictionary lookup `store.get(card_id)` on the association-list model. -/
def lookupStore : Store → String → Option CardState
  | [], _ => none
  | p :: rest, cid => if p.1 = cid then some p.2 else lookupStore rest cid

/-- Dictionary assignment `store[card_id] = state`: replace an existing
entry in place, or append a new entry at the end (Python dict semantics). -/
def setStore : Store → String → CardState → Store
  | [], cid, s => [(cid, s)]
  | p :: rest, cid, s => if p.1 = cid then (cid, s) :: rest else p :: setStore rest cid s

/-- The keys of the store (`self.card_states.keys()`). -/
def studiedKeys (store : Store) : List String :=
  store.map Prod.fst

/-- The comparison key used by `Scheduler.get_due_cards`'s sort:
`lambda x: x[1].next_review`. -/
def byNextReview (a b : String × CardState) : Prop :=
  a.2.next_review ≤ b.2.next_review

instance : DecidableRel byNextReview :=
  fun a b => inferInstanceAs (Decidable (a.2.next_review ≤ b.2.next_review))

instance : IsTotal (String × CardState) byNextReview :=
  ⟨fun a b => Int.le_total a.2.next_review b.2.next_review⟩

instance : IsTrans (String × CardState) byNextReview :=
  ⟨fun _ _ _ hab hbc => le_trans hab hbc⟩

/-- The list comprehension in `Scheduler.get_due_cards`: the `(card_id,
state)` pairs of the store whose state is due. -/
def dueEntries (now : ℤ) (store : Store) : List (String × CardState) :=
  store.filter (fun p => p.2.is_due now)

/-- The due entries after `due.sort(key=lambda x: x[1].next_review)`
(a stable sort by `next_review`). -/
def dueSorted (now : ℤ) (store : Store) : List (String × CardState) :=
  List.insertionSort byNextReview (dueEntries now store)

/-- Embedding of `Scheduler.get_due_cards`. -/
def get_due_cards (now : ℤ) (store : Store) : List String :=
  (dueSorted now store).map Prod.fst

/-- Embedding of `Scheduler.get_new_cards`: the ids of `all_card_ids` not
among the studied keys, truncated to `limit`. -/
def get_new_cards (store : Store) (all_card_ids : List String) (limit : ℕ) : List String :=
  (all_card_ids.filter (fun cid => decide (cid ∉ studiedKeys store))).take limit

/-- Embedding of `Scheduler.review_card`: look up the state (or a fresh
default), apply `sm2_algorithm`, store and return the result. -/
def review_card (now : ℤ) (store : Store) (card_id : String) (rating : Rating) :
    CardState × Store :=
  let current_state := (lookupStore store card_id).getD (CardState.fresh card_id now)
  let new_state := sm2_algorithm now current_state rating
  (new_state, setStore store card_id new_state)

/-- Embedding of `StudyScreen._load_study_session` from `src/app.py`.
Catalog entries (`NETWORKS`) are represented by their identifier strings
`str(n.asn)`; the source filters the catalog by membership in `due_ids`
and `new_ids`, so the resulting order is catalog order, not the order of
`due_ids`. -/
def load_study_session (now : ℤ) (store : Store) (catalog : List String) : List String :=
  let due_ids := get_due_cards now store
  let due_networks := catalog.filter (fun cid => decide (cid ∈ due_ids))
  let all_ids := catalog
  let new_ids := get_new_cards store all_ids 10
  let new_networks := catalog.filter (fun cid => decide (cid ∈ new_ids))
  due_networks ++ new_networks

/-- The dictionary produced by `CardState.to_dict` (timestamps are kept
abstract: `isoformat`/`fromisoformat` round-trip exactly). -/
structure CardDict where
  card_id : String
  ease_factor : ℚ
  interval : ℤ
  repetitions : ℕ
  next_review : ℤ
  last_reviewed : Option ℤ
  deriving DecidableEq, Repr

/-- Embedding of `CardState.to_dict`. -/
def CardState.to_dict (s : CardState) : CardDict :=
  { card_id := s.card_id
    ease_factor := s.ease_factor
    interval := s.interval
    repetitions := s.repetitions
    next_review := s.next_review
    last_reviewed := s.last_reviewed }

/-- Embedding of `CardState.from_dict`. -/
def CardState.from_dict (d : CardDict) : CardState :=
  { card_id := d.card_id
    ease_factor := d.ease_factor
    interval := d.interval
    repetitions := d.repetitions
    next_review := d.next_review
    last_reviewed := d.last_reviewed }

/-- A per-card record of the persisted JSON (`data["cards"][card_id]`):
a `to_dict` dictionary with the `card_id` key deleted. -/
structure SavedEntry where
  ease_factor : ℚ
  interval : ℤ
  repetitions : ℕ
  next_review : ℤ
  last_reviewed : Option ℤ
  deriving DecidableEq, Repr

/-- The `del state_dict["card_id"]` step in `ProgressManager.save`. -/
def delCardId (d : CardDict) : SavedEntry :=
  { ease_factor := d.ease_factor
    interval := d.interval
    repetitions := d.repetitions
    next_review := d.next_review
    last_reviewed := d.last_reviewed }

/-- The `state_data["card_id"] = card_id` step in `ProgressManager.load`. -/
def withCardId (cid : String) (e : SavedEntry) : CardDict :=
  { card_id := cid
    ease_factor := e.ease_factor
    interval := e.interval
    repetitions := e.repetitions
    next_review := e.next_review
    last_reviewed := e.last_reviewed }

/-- Embedding of `ProgressManager.save` at the level of the `"cards"`
object it writes (the JSON text layer and the `version`/`last_saved`
metadata are outside the store round-trip). -/
def ProgressManager.save (card_states : Store) : List (String × SavedEntry) :=
  card_states.map (fun p => (p.1, delCardId p.2.to_dict))

/-- Embedding of `ProgressManager.load` on a well-formed `"cards"` object:
each entry gets its `card_id` overwritten with its key and is decoded by
`CardState.from_dict`. -/
def ProgressManager.load (data : List (String × SavedEntry)) : Store :=
  data.map (fun p => (p.1, CardState.from_dict (withCardId p.1 p.2)))

/-- Embedding of a sequence of reviews: fold `sm2_algorithm` over a list
of `(now, rating)` pairs. -/
def applyReviews (state : CardState) (reviews : List (ℤ × Rating)) : CardState :=
  reviews.foldl (fun s p => sm2_algorithm p.1 s p.2) state

/-- A store whose single entry has a `card_id` field different from its
key (expressible in the source, where the two are linked only by
convention). -/
def badStore : Store :=
  [("a", { card_id := "b", ease_factor := 2.5, interval := 0, repetitions := 0,
           next_review := 0, last_reviewed := none })]

/-- A consistent one-entry store. -/
def goodStore : Store :=
  [("a", { card_id := "a", ease_factor := 2.5, interval := 3, repetitions := 1,
           next_review := 4, last_reviewed := some 0 })]

/-- A store whose single card is not yet due at time 0. -/
def lateStore : Store :=
  [("a", { card_id := "a", ease_factor := 2.5, interval := 0, repetitions := 0,
           next_review := 5, last_reviewed := none })]

/-- A two-card store whose due order (by `next_review`) is the reverse of
the catalog order `["a", "b"]`. -/
def twoCardStore : Store :=
  [("a", { card_id := "a", ease_factor := 2.5, interval := 0, repetitions := 0,
           next_review := 5, last_reviewed := none }),
   ("b", { card_id := "b", ease_factor := 2.5, interval := 0, repetitions := 0,
           next_review := 3, last_reviewed := none })]

/-- A card state with `repetitions = 2` but `interval = 0`, expressible in
the source (for instance loaded from an edited progress file). -/
def zeroIntervalState : CardState :=
  { card_id := "x", ease_factor := 2.5, interval := 0, repetitions := 2,
    next_review := 0, last_reviewed := none }

/-- Unfolding lemma: the interval computed by `sm2_algorithm`. -/
theorem sm2_interval_eq (now : ℤ) (s : CardState) (r : Rating) :
    (sm2_algorithm now s r).interval =
      if 3 ≤ r.val then
        if s.repetitions = 0 then 1
        else if s.repetitions = 1 then 6
        else pyRound ((s.interval : ℚ) * s.ease_factor)
      else 1 := rfl

/-- Unfolding lemma: the repetition count computed by `sm2_algorithm`. -/
theorem sm2_repetitions_eq (now : ℤ) (s : CardState) (r : Rating) :
    (sm2_algorithm now s r).repetitions =
      if 3 ≤ r.val then s.repetitions + 1 else 0 := rfl

/-- The ease factor produced by one `sm2_algorithm` step is at least 1.3. -/
theorem sm2_ease_factor_floor (now : ℤ) (s : CardState) (r : Rating) :
    (1.3 : ℚ) ≤ (sm2_algorithm now s r).ease_factor :=
  le_max_left _ _

/-- Python's `round` never rounds below the floor. -/
theorem floor_le_pyRound (q : ℚ) : ⌊q⌋ ≤ pyRound q := by
  simp only [pyRound]
  split
  · exact le_refl _
  · split
    · omega
    · split <;> omega

/-- Lookup after in-place assignment at the same key. -/
theorem lookup_setStore_self (store : Store) (cid : String) (s : CardState) :
    lookupStore (setStore store cid s) cid = some s := by
  induction store with
  | nil => simp [setStore, lookupStore]
  | cons p rest ih =>
    by_cases hp : p.1 = cid
    · simp [setStore, hp, lookupStore]
    · simp [setStore, hp, lookupStore, ih]

/-- Lookup at a different key is unchanged by assignment. -/
theorem lookup_setStore_ne (store : Store) (cid k : String) (s : CardState)
    (hk : k ≠ cid) :
    lookupStore (setStore store cid s) k = lookupStore store k := by
  induction store with
  | nil => simp [setStore, lookupStore, Ne.symm hk]
  | cons p rest ih =>
    by_cases hp : p.1 = cid
    · simp [setStore, hp, lookupStore, Ne.symm hk, ih]
    · simp [setStore, hp, lookupStore, ih]

/-- Assignment at an absent key appends the new entry at the end. -/
theorem setStore_absent (store : Store) (cid : String) (s : CardState)
    (h : lookupStore store cid = none) :
    setStore store cid s = store ++ [(cid, s)] := by
  induction store with
  | nil => rfl
  | cons p rest ih =>
    rw [lookupStore] at h
    by_cases hp : p.1 = cid
    · rw [if_pos hp] at h
      exact absurd h (by simp)
    · rw [if_neg hp] at h
      rw [setStore, if_neg hp, ih h]
      rfl

/-- A key outside `studiedKeys` has no entry in the store. -/
theorem lookup_eq_none_of_not_studied (store : Store) (cid : String)
    (h : cid ∉ studiedKeys store) : lookupStore store cid = none := by
  induction store with
  | nil => rfl
  | cons p rest ih =>
    simp only [studiedKeys, List.map_cons, List.mem_cons, not_or] at h
    rw [lookupStore, if_neg (fun hp => h.1 hp.symm)]
    exact ih h.2

/-- The new-card selection is a sublist of the catalog ids. -/
theorem get_new_cards_sublist (store : Store) (all_card_ids : List String) (limit : ℕ) :
    (get_new_cards store all_card_ids limit).Sublist all_card_ids :=
  (List.take_sublist _ _).trans (List.filter_sublist _)

/-- Filtering a duplicate-free list by membership in one of its sublists
recovers exactly that sublist. -/
theorem filter_mem_eq_of_sublist {s l : List String} (h : s.Sublist l) :
    l.Nodup → l.filter (fun x => decide (x ∈ s)) = s := by
  induction h with
  | slnil => intro _; rfl
  | @cons l₁ l₂ a h' ih =>
    intro hn
    have ha : a ∉ l₁ := fun hm => (List.nodup_cons.mp hn).1 (h'.subset hm)
    rw [List.filter_cons_of_neg (by simpa using ha), ih hn.of_cons]
  | @cons₂ l₁ l₂ a h' ih =>
    intro hn
    rw [List.filter_cons_of_pos (by simp)]
    have hcongr : ∀ x ∈ l₂, decide (x ∈ a :: l₁) = decide (x ∈ l₁) := by
      intro x hx
      have hxa : x ≠ a := fun he => (List.nodup_cons.mp hn).1 (he ▸ hx)
      simp [List.mem_cons, hxa]
    rw [List.filter_congr hcongr, ih hn.of_cons]

/-- C1: for every card state and rating, `sm2_algorithm` sets the interval
to 1 / 6 / `round(interval * previous ease)` according to the previous
repetition count and increments repetitions when the rating value is at
least 3, and resets repetitions to 0 and the interval to 1 when the
rating value is below 3. -/
theorem c1_sm2_interval_and_repetitions (now : ℤ) (s : CardState) (r : Rating) :
    (3 ≤ r.val →
      (sm2_algorithm now s r).repetitions = s.repetitions + 1 ∧
      (sm2_algorithm now s r).interval =
        (if s.repetitions = 0 then 1
         else if s.repetitions = 1 then 6
         else pyRound ((s.interval : ℚ) * s.ease_factor))) ∧
    (r.val < 3 →
      (sm2_algorithm now s r).repetitions = 0 ∧
      (sm2_algorithm now s r).interval = 1) := by
  constructor
  · intro h
    refine ⟨?_, ?_⟩
    · rw [sm2_repetitions_eq, if_pos h]
    · rw [sm2_interval_eq, if_pos h]
  · intro h
    have h' : ¬ 3 ≤ r.val := by omega
    refine ⟨?_, ?_⟩
    · rw [sm2_repetitions_eq, if_neg h']
    · rw [sm2_interval_eq, if_neg h']

/-- Witness for C1 at a fresh card rated GOOD. -/
theorem c1_witness :
    3 ≤ Rating.GOOD.val ∧
    ((sm2_algorithm 0 (CardState.fresh "x" 0) Rating.GOOD).repetitions =
        (CardState.fresh "x" 0).repetitions + 1 ∧
      (sm2_algorithm 0 (CardState.fresh "x" 0) Rating.GOOD).interval =
        (if (CardState.fresh "x" 0).repetitions = 0 then 1
         else if (CardState.fresh "x" 0).repetitions = 1 then 6
         else pyRound (((CardState.fresh "x" 0).interval : ℚ) *
           (CardState.fresh "x" 0).ease_factor))) :=
  ⟨by decide, (c1_sm2_interval_and_repetitions 0 (CardState.fresh "x" 0) Rating.GOOD).1
    (by decide)⟩

/-- C2: for every card state and every rating, including the failing
ratings AGAIN and HARD, the new ease factor is
`max 1.3 (ease + (0.1 - (5 - v) * (0.08 + (5 - v) * 0.02)))` where `v` is
the integer value of the rating. -/
theorem c2_sm2_ease_update (now : ℤ) (s : CardState) (r : Rating) :
    (sm2_algorithm now s r).ease_factor =
      max 1.3 (s.ease_factor +
        (0.1 - ((5 - r.val : ℤ) : ℚ) * (0.08 + ((5 - r.val : ℤ) : ℚ) * 0.02))) := rfl

/-- C3: starting from any state with ease factor at least 1.3 (in
particular the default 2.5), no sequence of reviews ever drives the ease
factor below 1.3. -/
theorem c3_ease_floor_over_sequence (s : CardState) (h : (1.3 : ℚ) ≤ s.ease_factor)
    (reviews : List (ℤ × Rating)) :
    (1.3 : ℚ) ≤ (applyReviews s reviews).ease_factor := by
  induction reviews generalizing s with
  | nil => exact h
  | cons p rest ih => exact ih _ (sm2_ease_factor_floor p.1 s p.2)

/-- Witness for C3: two AGAIN reviews of a fresh card. -/
theorem c3_witness :
    (1.3 : ℚ) ≤
      (applyReviews (CardState.fresh "x" 0) [(0, Rating.AGAIN), (1, Rating.AGAIN)]).ease_factor :=
  c3_ease_floor_over_sequence (CardState.fresh "x" 0) (by norm_num [CardState.fresh]) _

/-- C4 counterexample: a state with `repetitions = 2` and `interval = 0`
(expressible in the source, e.g. via a hand-edited progress file) yields
`round(0 * 2.5) = 0 < 1` on a GOOD review, so the claimed unconditional
`interval ≥ 1` fails. -/
theorem c4_counterexample :
    ¬ 1 ≤ (sm2_algorithm 0 zeroIntervalState Rating.GOOD).interval := by
  have h : (sm2_algorithm 0 zeroIntervalState Rating.GOOD).interval = pyRound 0 := by
    rw [sm2_interval_eq]
    norm_num [zeroIntervalState, Rating.val]
  have h2 : pyRound 0 = 0 := by
    norm_num [pyRound, Int.floor_zero]
  rw [h, h2]
  decide

/-- C4 (amended): the interval after `sm2_algorithm` is at least 1 for
every state in which `repetitions ≥ 2` implies `interval ≥ 1` and
`ease_factor ≥ 1.3` (which holds for every state the scheduler itself
produces); in particular it is unconditional for `repetitions ≤ 1` and
for every failing rating. -/
theorem c4_amended_interval_ge_one (now : ℤ) (s : CardState) (r : Rating)
    (h : 2 ≤ s.repetitions → 1 ≤ s.interval ∧ (1.3 : ℚ) ≤ s.ease_factor) :
    1 ≤ (sm2_algorithm now s r).interval := by
  rw [sm2_interval_eq]
  by_cases h3 : 3 ≤ r.val
  · rw [if_pos h3]
    by_cases h0 : s.repetitions = 0
    · rw [if_pos h0]
    · rw [if_neg h0]
      by_cases h1 : s.repetitions = 1
      · rw [if_pos h1]; omega
      · rw [if_neg h1]
        obtain ⟨hi, he⟩ := h (by omega)
        have hfl : (1 : ℤ) ≤ ⌊(s.interval : ℚ) * s.ease_factor⌋ := by
          rw [Int.le_floor]
          have hi' : (1 : ℚ) ≤ (s.interval : ℚ) := by exact_mod_cast hi
          push_cast
          nlinarith
        have hp := floor_le_pyRound ((s.interval : ℚ) * s.ease_factor)
        omega
  · rw [if_neg h3]

/-- Witness for C4 (amended) at a fresh card rated GOOD. -/
theorem c4_witness :
    1 ≤ (sm2_algorithm 0 (CardState.fresh "x" 0) Rating.GOOD).interval :=
  c4_amended_interval_ge_one 0 (CardState.fresh "x" 0) Rating.GOOD
    (fun hrep => absurd hrep (by decide))

/-- C5: `get_due_cards` returns exactly the ids whose state has
`next_review ≤ now`, as the first components of the due entries sorted in
non-decreasing `next_review` order, and returns the empty list when the
store is empty or nothing is due. -/
theorem c5_get_due_cards_spec (now : ℤ) (store : Store) :
    (∀ cid, cid ∈ get_due_cards now store ↔
        ∃ s, (cid, s) ∈ store ∧ s.next_review ≤ now) ∧
    get_due_cards now store = (dueSorted now store).map Prod.fst ∧
    List.Sorted byNextReview (dueSorted now store) ∧
    (dueSorted now store).Perm (dueEntries now store) ∧
    (store = [] → get_due_cards now store = []) ∧
    ((∀ p ∈ store, now < p.2.next_review) → get_due_cards now store = []) := by
  refine ⟨?_, rfl, List.sorted_insertionSort _ _, List.perm_insertionSort _ _, ?_, ?_⟩
  · intro cid
    constructor
    · intro hm
      rw [get_due_cards, List.mem_map] at hm
      obtain ⟨p, hp, rfl⟩ := hm
      have hp' : p ∈ dueEntries now store := (List.perm_insertionSort _ _).subset hp
      rw [dueEntries, List.mem_filter] at hp'
      refine ⟨p.2, by simpa using hp'.1, ?_⟩
      have := hp'.2
      simpa [CardState.is_due] using this
    · rintro ⟨s, hs, hle⟩
      rw [get_due_cards, List.mem_map]
      refine ⟨(cid, s), ?_, rfl⟩
      apply (List.perm_insertionSort _ _).mem_iff.mpr
      rw [dueEntries, List.mem_filter]
      exact ⟨hs, by simpa [CardState.is_due] using hle⟩
  · rintro rfl
    rfl
  · intro hnone
    have hempty : dueEntries now store = [] := by
      rw [dueEntries, List.filter_eq_nil_iff]
      intro p hp
      have := hnone p hp
      simp [CardState.is_due]
      omega
    rw [get_due_cards, dueSorted, hempty]
    rfl

/-- Witness for C5: a store whose only card is not yet due. -/
theorem c5_witness : get_due_cards 0 lateStore = [] :=
  (c5_get_due_cards_spec 0 lateStore).2.2.2.2.2 (by decide)

/-- C6: `get_new_cards` returns at most `limit` identifiers, in the
relative order of `all_card_ids` (a sublist of it), each absent from the
state store, and a limit of 0 yields the empty list. -/
theorem c6_get_new_cards_spec (store : Store) (all_card_ids : List String) (limit : ℕ) :
    (get_new_cards store all_card_ids limit).Sublist all_card_ids ∧
    (get_new_cards store all_card_ids limit).length ≤ limit ∧
    (∀ cid ∈ get_new_cards store all_card_ids limit, lookupStore store cid = none) ∧
    get_new_cards store all_card_ids 0 = [] := by
  refine ⟨get_new_cards_sublist _ _ _, ?_, ?_, rfl⟩
  · rw [get_new_cards, List.length_take]
    exact min_le_left _ _
  · intro cid hm
    have hf : cid ∈ all_card_ids.filter (fun cid => decide (cid ∉ studiedKeys store)) :=
      (List.take_sublist _ _).subset hm
    rw [List.mem_filter] at hf
    exact lookup_eq_none_of_not_studied _ _ (by simpa using hf.2)

/-- Witness for C6: the id "b" selected as new is absent from the store. -/
theorem c6_witness : lookupStore goodStore "b" = none :=
  (c6_get_new_cards_spec goodStore ["a", "b"] 5).2.2.1 "b" (by decide)

/-- C7 counterexample: with catalog order `["a", "b"]` and both cards due
but "b" more overdue, `get_due_cards` returns `["b", "a"]` while the
session candidate list is `["a", "b"]` (catalog order), so the candidate
list is not `get_due_cards ++ get_new_cards`. -/
theorem c7_counterexample :
    load_study_session 10 twoCardStore ["a", "b"] ≠
      get_due_cards 10 twoCardStore ++ get_new_cards twoCardStore ["a", "b"] 10 := by
  decide

/-- C7 (amended): for a duplicate-free catalog, the session candidate
list is the catalog ids that are due (in catalog order, not in
`get_due_cards` order) followed by exactly `get_new_cards` with limit 10
(whose order coincides with catalog order). -/
theorem c7_amended_study_session (now : ℤ) (store : Store) (catalog : List String)
    (h : catalog.Nodup) :
    load_study_session now store catalog =
      catalog.filter (fun cid => decide (cid ∈ get_due_cards now store)) ++
        get_new_cards store catalog 10 := by
  simp only [load_study_session]
  congr 1
  exact filter_mem_eq_of_sublist (get_new_cards_sublist store catalog 10) h

/-- Witness for C7 (amended) on the two-card store. -/
theorem c7_witness :
    load_study_session 10 twoCardStore ["a", "b"] =
      (["a", "b"]).filter (fun cid => decide (cid ∈ get_due_cards 10 twoCardStore)) ++
        get_new_cards twoCardStore ["a", "b"] 10 :=
  c7_amended_study_session 10 twoCardStore ["a", "b"] (by decide)

/-- One persisted entry round-trips exactly when its stored `card_id`
matches the key it is saved under. -/
theorem roundtrip_entry (cid : String) (s : CardState) (h : s.card_id = cid) :
    CardState.from_dict (withCardId cid (delCardId s.to_dict)) = s := by
  cases s
  simp_all [CardState.from_dict, withCardId, delCardId, CardState.to_dict]

/-- C8 counterexample: a store entry saved under key "a" whose `card_id`
field is "b" comes back from the round trip with `card_id` "a", so the
round trip does not reproduce an identical `card_id` for every store. -/
theorem c8_counterexample :
    (ProgressManager.load (ProgressManager.save badStore)).map (fun p => p.2.card_id) ≠
      badStore.map (fun p => p.2.card_id) := by
  decide

/-- C8 (amended): for every store in which each entry's `card_id` equals
its key (as `review_card` maintains), saving and loading reproduces the
store exactly — same keys and identical `card_id`, `ease_factor`,
`interval`, `repetitions` and timestamps; in general the round trip
preserves everything except that `card_id` is overwritten with the key. -/
theorem c8_amended_roundtrip (store : Store) :
    (∀ p ∈ store, p.2.card_id = p.1) →
    ProgressManager.load (ProgressManager.save store) = store := by
  induction store with
  | nil => intro _; rfl
  | cons p rest ih =>
    intro h
    have hp : p.2.card_id = p.1 := h p (List.mem_cons_self p rest)
    have hrest : ∀ q ∈ rest, q.2.card_id = q.1 :=
      fun q hq => h q (List.mem_cons_of_mem p hq)
    show (p.1, CardState.from_dict (withCardId p.1 (delCardId p.2.to_dict))) ::
        ProgressManager.load (ProgressManager.save rest) = p :: rest
    rw [roundtrip_entry p.1 p.2 hp, Prod.mk.eta, ih hrest]

/-- Witness for C8 (amended) on a consistent one-entry store. -/
theorem c8_witness :
    ProgressManager.load (ProgressManager.save goodStore) = goodStore :=
  c8_amended_roundtrip goodStore (by decide)

/-- C9: reviewing an unknown card id raises no error: `review_card`
synthesizes the fresh default state (ease 2.5, interval 0, repetitions 0,
`next_review = now`, no `last_reviewed`), applies `sm2_algorithm` to it,
appends the result to the store under that id, and returns it. -/
theorem c9_review_card_unknown_id (now : ℤ) (store : Store) (cid : String) (r : Rating)
    (h : lookupStore store cid = none) :
    review_card now store cid r =
      (sm2_algorithm now (CardState.fresh cid now) r,
       store ++ [(cid, sm2_algorithm now (CardState.fresh cid now) r)]) := by
  simp only [review_card, h, Option.getD_none]
  rw [setStore_absent store cid _ h]

/-- Witness for C9: reviewing the unknown id "b". -/
theorem c9_witness :
    review_card 0 goodStore "b" Rating.GOOD =
      (sm2_algorithm 0 (CardState.fresh "b" 0) Rating.GOOD,
       goodStore ++ [("b", sm2_algorithm 0 (CardState.fresh "b" 0) Rating.GOOD)]) :=
  c9_review_card_unknown_id 0 goodStore "b" Rating.GOOD (by decide)

/-- C10 counterexample: on a store whose entry at key "a" carries
`card_id` "b", `review_card` at "a" returns a state whose `card_id` is
"b", not the argument "a", refuting the claim's final clause for
arbitrary stores. -/
theorem c10_counterexample :
    (review_card 0 badStore "a" Rating.GOOD).1.card_id ≠ "a" := by
  decide

/-- C10 (amended): `review_card` changes no entry other than the one at
the reviewed id, stores exactly the returned state at that id, and the
returned state's `card_id` equals the argument whenever no prior entry
exists, and otherwise equals the prior entry's stored `card_id` (hence
the argument whenever the store is consistent). -/
theorem c10_amended_frame (now : ℤ) (store : Store) (cid : String) (r : Rating) :
    (∀ k, k ≠ cid →
      lookupStore (review_card now store cid r).2 k = lookupStore store k) ∧
    lookupStore (review_card now store cid r).2 cid =
      some (review_card now store cid r).1 ∧
    (∀ s, lookupStore store cid = some s →
      (review_card now store cid r).1.card_id = s.card_id) ∧
    (lookupStore store cid = none → (review_card now store cid r).1.card_id = cid) := by
  refine ⟨?_, ?_, ?_, ?_⟩
  · intro k hk
    simp only [review_card]
    exact lookup_setStore_ne store cid k _ hk
  · simp only [review_card]
    exact lookup_setStore_self store cid _
  · intro s hs
    simp only [review_card, hs, Option.getD_some]
    rfl
  · intro hn
    simp only [review_card, hn, Option.getD_none]
    rfl

/-- Witness for C10 (amended): the entry at key "b" is untouched by a
review of "a". -/
theorem c10_witness :
    lookupStore (review_card 0 goodStore "a" Rating.GOOD).2 "b" =
      lookupStore goodStore "b" :=
  (c10_amended_frame 0 goodStore "a" Rating.GOOD).1 "b" (by decide)

end AsnMemo
